import Mathlib

/-!
Shallow embedding of the matching and scoring core of `slskd_spotipy_dl.py`
(Spotify liked-songs to slskd downloader), together with theorems settling
the specification claims about it.

Python strings are modelled as Lean `String` over their character lists;
CPython's float scores are modelled as exact rationals (every score term is
a small rational, so the arithmetic used by the thresholds is exact);
Python's `re` operations used by the program are compiled by hand into
executable character-list scanners with the same leftmost-match semantics.
-/

/-- Python `\s` (ASCII range): space, tab, newline, carriage return,
vertical tab, form feed. -/
def isPySpace (c : Char) : Bool :=
  c == ' ' || c == '\t' || c == '\n' || c == '\r' || c == '\x0b' || c == '\x0c'

/-- Python `\w` (ASCII range): alphanumeric or underscore. -/
def isWordChar (c : Char) : Bool :=
  c.isAlphanum || c == '_'

/-- Python `str.lower` (ASCII model). -/
def lowerStr (s : String) : String :=
  String.mk (s.data.map Char.toLower)

/-- Test whether `hay` begins with `pat` (on character lists). -/
def listStartsWith : List Char → List Char → Bool
  | _, [] => true
  | [], _ :: _ => false
  | a :: as, b :: bs => a == b && listStartsWith as bs

/-- Python `pat in hay` substring test (on character lists). -/
def subOccurs (pat : List Char) : List Char → Bool
  | [] => pat.isEmpty
  | c :: rest => listStartsWith (c :: rest) pat || subOccurs pat rest

/-- Test whether `suf` is a suffix of `l` (on character lists). -/
def isSuffixList (suf l : List Char) : Bool :=
  listStartsWith l.reverse suf.reverse

/-- Numeric value of a digit run. -/
def digitsToNat (ds : List Char) : Nat :=
  ds.foldl (fun n c => n * 10 + (c.toNat - 48)) 0

/-- Python `str.strip` on a character list: drop leading and trailing
whitespace. -/
def pyStrip (cs : List Char) : List Char :=
  ((cs.dropWhile isPySpace).reverse.dropWhile isPySpace).reverse

/-- Split a character list into its maximal whitespace-free words
(the accumulator carries the current word reversed). -/
def wordsAux : List Char → List Char → List (List Char)
  | [], acc => if acc.isEmpty then [] else [acc.reverse]
  | c :: rest, acc =>
    if isPySpace c then
      if acc.isEmpty then wordsAux rest [] else acc.reverse :: wordsAux rest []
    else
      wordsAux rest (c :: acc)

/-- Join words with single spaces. -/
def joinWords : List (List Char) → List Char
  | [] => []
  | [w] => w
  | w :: w2 :: rest => w ++ ' ' :: joinWords (w2 :: rest)

/-- Embeds `LocalMusicScanner._normalize_string`: lower-case, drop every character
that is neither a word character (`\w`) nor whitespace (`\s`), collapse
whitespace runs to one space, strip.  Replacing each whitespace run by a
single space and then stripping the ends is the same as joining the
whitespace-separated words with single spaces, which is how the collapse
step is rendered here. -/
def normalizeString (s : String) : String :=
  String.mk (joinWords (wordsAux
    ((s.data.map Char.toLower).filter (fun c => isWordChar c || isPySpace c)) []))

/-- Embeds `LocalMusicScanner._remove_the_prefix`: `re.sub(r"^the\s+", "", s)` —
remove a leading lowercase "the" together with the whitespace run after it
(the pattern is case-sensitive in the source). -/
def removeTheArticle (s : String) : String :=
  match s.data with
  | 't' :: 'h' :: 'e' :: rest =>
    match rest with
    | c :: _ => if isPySpace c then String.mk (rest.dropWhile isPySpace) else s
    | [] => s
  | _ => s

/-- Scan forward to the first `)` provided no newline intervenes
(the regex `.` does not match newlines); returns the remainder after it. -/
def findCloseParen : List Char → Option (List Char)
  | [] => none
  | ')' :: rest => some rest
  | '\n' :: _ => none
  | _ :: rest => findCloseParen rest

def featOpen : List Char := "(feat.".data

def ftOpen : List Char := "(ft.".data

/-- Embeds `re.sub(r"\(feat\..*?\)|\(ft\..*?\)", "", s)` on a character list:
remove every non-overlapping leftmost `(feat. …)` / `(ft. …)` group. -/
def removeFeatPlain : Nat → List Char → List Char
  | 0, cs => cs
  | _ + 1, [] => []
  | fuel + 1, c :: rest =>
    if listStartsWith (c :: rest) featOpen then
      match findCloseParen ((c :: rest).drop featOpen.length) with
      | some rem => removeFeatPlain fuel rem
      | none => c :: removeFeatPlain fuel rest
    else if listStartsWith (c :: rest) ftOpen then
      match findCloseParen ((c :: rest).drop ftOpen.length) with
      | some rem => removeFeatPlain fuel rem
      | none => c :: removeFeatPlain fuel rest
    else
      c :: removeFeatPlain fuel rest

/-- Embeds `re.sub(r"\s*\(feat\..*?\)|\s*\(ft\..*?\)", "", s)`: the variant used by
`create_search_query`, which also swallows whitespace before the group. -/
def removeFeatSpaced : Nat → List Char → List Char
  | 0, cs => cs
  | _ + 1, [] => []
  | fuel + 1, c :: rest =>
    let cs := c :: rest
    let afterWs := cs.dropWhile isPySpace
    if listStartsWith afterWs featOpen then
      match findCloseParen (afterWs.drop featOpen.length) with
      | some rem => removeFeatSpaced fuel rem
      | none => c :: removeFeatSpaced fuel rest
    else if listStartsWith afterWs ftOpen then
      match findCloseParen (afterWs.drop ftOpen.length) with
      | some rem => removeFeatSpaced fuel rem
      | none => c :: removeFeatSpaced fuel rest
    else
      c :: removeFeatSpaced fuel rest

/-- Spotify track information (`Track` dataclass). -/
structure Track where
  name : String
  artist : String
  album : String
  spotify_id : String
  duration_ms : Nat
  album_artist : Option String := none
  track_number : Option Nat := none
  year : Option Nat := none
  genre : Option String := none
deriving DecidableEq, Repr

/-- Payload of one `QualityProfile` enum member. -/
structure Profile where
  name : String
  formats : List String
  min_bitrate : Nat
  preferred_bitrate : Nat
  score_weight : ℚ
deriving DecidableEq, Repr

def LOSSLESS : Profile :=
  ⟨"Lossless", ["flac", "ape", "alac", "wav"], 900, 1411, 1⟩

def HIGH : Profile :=
  ⟨"High Quality", ["mp3", "flac", "ogg", "m4a"], 256, 320, 4/5⟩

def STANDARD : Profile :=
  ⟨"Standard", ["mp3", "ogg", "m4a", "wma"], 192, 256, 3/5⟩

def ANY : Profile :=
  ⟨"Any", ["mp3", "flac", "ogg", "m4a", "ape", "alac", "wav", "wma"], 128, 320, 2/5⟩

/-- One file offered by a peer (`filename`/`size` fields of a search result). -/
structure FileData where
  filename : String
  size : Nat
deriving DecidableEq, Repr

/-- One peer's entry in the slskd search response. -/
structure SearchResponse where
  username : String
  files : List FileData
deriving DecidableEq, Repr

/-- Result dict built by `QualityMatcher.find_best_match`. -/
structure MatchResult where
  username : String
  file : FileData
  score : ℚ
deriving DecidableEq, Repr

/-- Dict returned by `QualityMatcher.extract_metadata`. -/
structure ExtractedMeta where
  format : Option String
  bitrate : Option Nat
  is_lossless : Bool
deriving DecidableEq, Repr

def audioFormats : List String :=
  ["flac", "mp3", "ape", "alac", "wav", "ogg", "m4a", "wma"]

/-- Tail of the bitrate regex `(\d{3,4})\s*k?bps?` after the digit group:
greedy whitespace, optional `k`, then literal `bp` with optional `s`. -/
def bpsTail (cs : List Char) : Bool :=
  let cs1 := cs.dropWhile isPySpace
  let cs2 := match cs1 with
    | 'k' :: t => t
    | _ => cs1
  match cs2 with
  | 'b' :: 'p' :: _ => true
  | _ => false

/-- Try the first bitrate pattern at this position: the quantifier
`\d{3,4}` greedily takes four digits, then backtracks to three. -/
def tryBps (cs : List Char) : Option Nat :=
  let ds := cs.takeWhile Char.isDigit
  if 4 ≤ ds.length && bpsTail (cs.drop 4) then some (digitsToNat (ds.take 4))
  else if 3 ≤ ds.length && bpsTail (cs.drop 3) then some (digitsToNat (ds.take 3))
  else none

/-- Leftmost match of `(\d{3,4})\s*k?bps?`. -/
def findBps : List Char → Option Nat
  | [] => none
  | c :: rest =>
    match tryBps (c :: rest) with
    | some n => some n
    | none => findBps rest

/-- Try the fallback pattern `(\d{3,4})k` at this position. -/
def tryKNum (cs : List Char) : Option Nat :=
  let ds := cs.takeWhile Char.isDigit
  if 4 ≤ ds.length && listStartsWith (cs.drop 4) ['k'] then
    some (digitsToNat (ds.take 4))
  else if 3 ≤ ds.length && listStartsWith (cs.drop 3) ['k'] then
    some (digitsToNat (ds.take 3))
  else none

/-- Leftmost match of `(\d{3,4})k`. -/
def findKNum : List Char → Option Nat
  | [] => none
  | c :: rest =>
    match tryKNum (c :: rest) with
    | some n => some n
    | none => findKNum rest

def losslessMarkers : List String :=
  ["flac", "lossless", "ape", "alac", "wav"]

/-- Embeds `QualityMatcher.extract_metadata`. -/
def extract_metadata (filename : String) : ExtractedMeta :=
  let fl := (lowerStr filename).data
  let fmt := audioFormats.find? (fun e => isSuffixList ('.' :: e.data) fl)
  let bitrate :=
    match findBps fl with
    | some n => some n
    | none => findKNum fl
  let lossless := losslessMarkers.any (fun w => subOccurs w.data fl)
  let bitrate' :=
    if lossless && (bitrate == none || bitrate == some 0) then some 1411
    else bitrate
  ⟨fmt, bitrate', lossless⟩

/-- Embeds `re.sub(r"[^\w\s]", "", s.lower())` as used for the text-match bonuses
in `score_file` (no whitespace collapsing here). -/
def cleanText (s : String) : String :=
  String.mk ((s.data.map Char.toLower).filter (fun c => isWordChar c || isPySpace c))

/-- Embeds `QualityMatcher.score_file`.  The running float score is modelled as an
exact rational; `none` from the bitrate stage encodes the `return 0.0`
rejection for a known bitrate below the profile minimum, and Python's
truthiness test `if metadata["bitrate"]:` makes a zero bitrate skip the
stage. -/
def score_file (profile : Profile) (file_data : FileData) (track : Track) : ℚ :=
  let filename := lowerStr file_data.filename
  let md := extract_metadata filename
  match md.format with
  | none => 0
  | some fmt =>
    if fmt ∈ profile.formats then
      let formatScore : ℚ :=
        30 + (if fmt ∈ (["flac", "mp3"].take 2) then 10 else 0)
      let bitrateScore : Option ℚ :=
        match md.bitrate with
        | some br =>
          if br ≠ 0 then
            if profile.min_bitrate ≤ br then
              some (25 + max 0 (15 - |(br : ℚ) - (profile.preferred_bitrate : ℚ)| / 50))
            else none
          else some 0
        | none => some 0
      match bitrateScore with
      | none => 0
      | some bs =>
        let textScore : ℚ :=
          (if subOccurs (cleanText track.name).data filename.data then 15 else 0)
          + (if subOccurs (cleanText track.artist).data filename.data then 10 else 0)
          + (if subOccurs (cleanText track.album).data filename.data then 5 else 0)
        let brForSize : Nat :=
          match md.bitrate with
          | some br => if br ≠ 0 then br else 320
          | none => 320
        let expected : ℚ :=
          ((track.duration_ms : ℚ) / 1000) * (brForSize : ℚ) * 1000 / 8
        let sizeScore : ℚ :=
          if expected * (1/2) < (file_data.size : ℚ) ∧ (file_data.size : ℚ) < expected * 2
          then 5 else 0
        (formatScore + bs + textScore + sizeScore) * profile.score_weight
    else 0

/-- Inner-loop step of `find_best_match`: score one file and keep it when
it strictly beats the running best (first-wins on ties). -/
def considerFile (profile : Profile) (track : Track) (username : String)
    (acc : ℚ × Option MatchResult) (fd : FileData) : ℚ × Option MatchResult :=
  let sc := score_file profile fd track
  if acc.1 < sc then (sc, some (⟨username, fd, sc⟩ : MatchResult)) else acc

/-- Outer-loop step of `find_best_match`: fold one peer's file list. -/
def considerResponse (profile : Profile) (track : Track)
    (acc : ℚ × Option MatchResult) (resp : SearchResponse) : ℚ × Option MatchResult :=
  resp.files.foldl (considerFile profile track resp.username) acc

/-- Embeds `QualityMatcher.find_best_match`: fold over peers and their files from
`best_score = 0` / `best_match = None`, then return the best candidate only
when its score reaches the acceptance threshold 40. -/
def find_best_match (profile : Profile) (responses : List SearchResponse)
    (track : Track) : Option MatchResult :=
  let final := responses.foldl (considerResponse profile track)
    ((0 : ℚ), (none : Option MatchResult))
  match final.2 with
  | some m => if 40 ≤ m.score then some m else none
  | none => none

/-- Index keys added by `LocalMusicScanner._scan_directories` for a single
file whose metadata extraction succeeded: the `"artist|title"` key built from
the (already normalized) parsed metadata, and the normalized filename-stem
key added as fallback. -/
def scanKeys (artist title stem : String) : List String :=
  [normalizeString artist ++ "|" ++ normalizeString title, normalizeString stem]

/-- Embeds `LocalMusicScanner.track_exists`: build the battery of candidate keys
and test exact membership in the index (empty patterns are skipped by the
`if pattern` filter). -/
def track_exists (idx : List String) (track : Track) : Bool :=
  let artist_norm := normalizeString track.artist
  let title_norm := normalizeString track.name
  let primary_artist := String.mk (pyStrip
    ((artist_norm.data.takeWhile (fun c => c != ',')).takeWhile (fun c => c != '&')))
  let base_list : List String :=
    [artist_norm ++ "|" ++ title_norm,
     primary_artist ++ "|" ++ title_norm,
     artist_norm ++ " " ++ title_norm,
     primary_artist ++ " " ++ title_norm,
     title_norm ++ " " ++ artist_norm,
     removeTheArticle (artist_norm ++ " " ++ title_norm),
     removeTheArticle (primary_artist ++ " " ++ title_norm),
     title_norm]
  let base_title := String.mk (pyStrip (removeFeatPlain title_norm.data.length title_norm.data))
  let check_patterns :=
    if base_title != title_norm then
      base_list ++
        [artist_norm ++ "|" ++ base_title,
         primary_artist ++ "|" ++ base_title,
         artist_norm ++ " " ++ base_title]
    else base_list
  check_patterns.any (fun p => p != "" && idx.contains p)

/-- A matching block as found by `difflib.SequenceMatcher.find_longest_match`. -/
structure LMatch where
  i : Nat
  j : Nat
  size : Nat
deriving DecidableEq, Repr

/-- One row of the quadratic matching-length table: `row[j]` is the length
of the longest common run ending at `a[i]`/`b[j]`, zero off-match or
outside `[blo, bhi)`. -/
def smRow (aChar : Char) (b : List Char) (blo bhi : Nat) (j2len : List Nat) : List Nat :=
  (List.range b.length).map (fun j =>
    if b.getD j ' ' == aChar ∧ blo ≤ j ∧ j < bhi then
      (if j = 0 then 0 else j2len.getD (j - 1) 0) + 1
    else 0)

/-- Fold a row into the running best block; strict `<` keeps the first
maximal block (earliest end in `a`, then in `b`), as CPython does. -/
def smBest (i : Nat) (row : List Nat) (best : LMatch) : LMatch :=
  (List.range row.length).foldl (fun bst j =>
    let k := row.getD j 0
    if bst.size < k then ⟨i + 1 - k, j + 1 - k, k⟩ else bst) best

/-- Embeds `SequenceMatcher.find_longest_match` restricted to
`a[alo:ahi]` / `b[blo:bhi]` (no junk, autojunk inactive for the short
strings involved). -/
def findLongestMatch (a b : List Char) (alo ahi blo bhi : Nat) : LMatch :=
  ((List.range' alo (ahi - alo)).foldl (fun st i =>
    let row := smRow (a.getD i ' ') b blo bhi st.2
    (smBest i row st.1, row)) ((⟨alo, blo, 0⟩ : LMatch), List.replicate b.length 0)).1

/-- Total number of matched characters in `get_matching_blocks`
(Ratcliff–Obershelp recursion around the longest block). -/
def matchTotal (a b : List Char) : Nat → Nat × Nat × Nat × Nat → Nat
  | 0, _ => 0
  | fuel + 1, (alo, ahi, blo, bhi) =>
    let m := findLongestMatch a b alo ahi blo bhi
    if m.size = 0 then 0
    else
      matchTotal a b fuel (alo, m.i, blo, m.j) + m.size
        + matchTotal a b fuel (m.i + m.size, ahi, m.j + m.size, bhi)

/-- Embeds `SequenceMatcher(None, s1, s2).ratio()`: `2*M / (len1+len2)`, and 1 for
two empty strings. -/
def seqSimilarity (s1 s2 : String) : ℚ :=
  let a := s1.data
  let b := s2.data
  let total := a.length + b.length
  if total = 0 then 1
  else (2 * (matchTotal a b (total + 1) (0, a.length, 0, b.length)) : ℚ) / total

/-- Embeds `LocalMusicScanner._are_similar_tracks` with the default threshold 0.8:
keys in `artist|title` form compare componentwise (split at the first bar),
other keys compare whole. -/
def are_similar_tracks (key1 key2 : String) : Bool :=
  if subOccurs ['|'] key1.data && subOccurs ['|'] key2.data then
    let artist1 := String.mk (key1.data.takeWhile (fun c => c != '|'))
    let title1 := String.mk ((key1.data.dropWhile (fun c => c != '|')).drop 1)
    let artist2 := String.mk (key2.data.takeWhile (fun c => c != '|'))
    let title2 := String.mk ((key2.data.dropWhile (fun c => c != '|')).drop 1)
    decide ((4/5 : ℚ) < seqSimilarity artist1 artist2)
      && decide ((4/5 : ℚ) < seqSimilarity title1 title2)
  else
    decide ((4/5 : ℚ) < seqSimilarity key1 key2)

/-- Embeds `LocalMusicScanner.find_potential_duplicates` over the index enumerated
in a fixed order: each key maps to the later keys similar to it, and keys
with no later similar key are absent. -/
def find_potential_duplicates : List String → List (String × List String)
  | [] => []
  | k :: rest =>
    let ds := rest.filter (fun k2 => are_similar_tracks k k2)
    if ds.isEmpty then find_potential_duplicates rest
    else (k, ds) :: find_potential_duplicates rest

/-- One entry of `slskd.searches.get_all()` / result of `search_text`. -/
structure SearchEntry where
  searchText : String
  id : Nat
deriving DecidableEq, Repr

/-- One entry of `slskd.transfers.get_all_downloads()`. -/
structure Transfer where
  user : String
  filename : String
  state : String
deriving DecidableEq, Repr

/-- Behaviour of the external collaborators (slskd client, filesystem,
tagger) during one `download_track` call: each call site is an oracle that
either returns a value or raises (`Except.error`), indexed where the code
polls repeatedly. -/
structure SlskdEnv where
  getAllSearches : Except String (List SearchEntry)
  searchTextCall : String → Except String (Option SearchEntry)
  stateCall : Nat → Except String Bool
  responsesCall : Nat → Except String (List SearchResponse)
  finalResponsesCall : Except String (List SearchResponse)
  enqueueCall : Except String Unit
  downloadsCall : Nat → Except String (List Transfer)
  incompleteExists : Nat → Bool
  processCall : Nat → Except String (Option String)
  globPaths : Nat → List String
  processPathCall : Nat → String → Except String (Option String)

/-- Embeds `SpotifySlskdDownloader.create_search_query`: artist plus the title with
featured-artist parentheticals removed. -/
def create_search_query (track : Track) : String :=
  track.artist ++ " " ++ String.mk (removeFeatSpaced track.name.data.length track.name.data)

/-- Embeds `Path(filename).name`: the part after the last slash. -/
def pathBaseName (s : String) : String :=
  String.mk ((s.data.reverse.takeWhile (fun c => c != '/')).reverse)

/-- Embeds `wait_for_search_results`: poll until complete or the budget runs out;
any error in a poll is swallowed and the loop continues; after the budget,
a final fetch is attempted and an error there degrades to `[]`. -/
def wait_for_search_results (env : SlskdEnv) : Nat → List SearchResponse
  | 0 =>
    match env.finalResponsesCall with
    | .ok r => r
    | .error _ => []
  | fuel + 1 =>
    let iter : Except String (Option (List SearchResponse)) := do
      let complete ← env.stateCall fuel
      if complete then
        let r ← env.responsesCall fuel
        pure (some r)
      else
        pure none
    match iter with
    | .ok (some r) => r
    | .ok none => wait_for_search_results env fuel
    | .error _ => wait_for_search_results env fuel

/-- The filesystem-glob arm of the monitor loop: process each found path,
succeed on the first truthy result, keep going otherwise. -/
def processGlobPaths (env : SlskdEnv) (k : Nat) : List String → Except String (Option Bool)
  | [] => pure none
  | p :: rest => do
    let res ← env.processPathCall k p
    match res with
    | some _ => pure (some true)
    | none => processGlobPaths env k rest

/-- One iteration of the `monitor_download_completion` while-loop (the whole
body sits inside `try`): `some b` means return `b`, `none` means sleep and
retry. -/
def monitorIter (env : SlskdEnv) (username simpleName : String) (k : Nat) :
    Except String (Option Bool) := do
  let transfers ← env.downloadsCall k
  match transfers.find? (fun t =>
      t.user == username && pathBaseName t.filename == simpleName
        && t.state == "Completed") with
  | some _ =>
    if env.incompleteExists k then do
      let res ← env.processCall k
      match res with
      | some _ => pure (some true)
      | none => pure (some false)
    else
      pure (some false)
  | none => processGlobPaths env k (env.globPaths k)

/-- Embeds `monitor_download_completion`: iterate the monitor body, swallowing
per-iteration errors, until the timeout budget runs out (then `False`). -/
def monitor_download_completion (env : SlskdEnv) (username filename : String) : Nat → Bool
  | 0 => false
  | fuel + 1 =>
    match monitorIter env username (pathBaseName filename) fuel with
    | .ok (some b) => b
    | .ok none => monitor_download_completion env username filename fuel
    | .error _ => monitor_download_completion env username filename fuel

/-- The body of the `try` block of `download_track`: reuse or submit a
search (case-insensitive query comparison), await results, match, enqueue,
monitor.  Collaborator errors propagate out of this computation. -/
def downloadBody (profile : Profile) (env : SlskdEnv) (track : Track)
    (searchFuel monitorFuel : Nat) : Except String Bool := do
  let query := create_search_query track
  let existing ← env.getAllSearches
  let search ←
    match existing.find? (fun s => lowerStr s.searchText == lowerStr query) with
    | some s => pure (some s)
    | none => env.searchTextCall query
  match search with
  | none => pure false
  | some _ =>
    let results := wait_for_search_results env searchFuel
    if results.isEmpty then pure false
    else
      match find_best_match profile results track with
      | none => pure false
      | some m => do
        let _ ← env.enqueueCall
        pure (monitor_download_completion env m.username m.file.filename monitorFuel)

/-- Embeds `SpotifySlskdDownloader.download_track`: skip when the track is already
indexed, otherwise run the body under the catch-all `except`, which maps
any error to `False`. -/
def download_track (profile : Profile) (env : SlskdEnv) (idx : List String)
    (track : Track) (searchFuel monitorFuel : Nat) : Except String Bool :=
  if track_exists idx track then pure true
  else
    match downloadBody profile env track searchFuel monitorFuel with
    | .ok b => pure b
    | .error _ => pure false

/-- The per-track loop of `SpotifySlskdDownloader.run`, accumulating the
(skipped, successful, failed) counters; a `download_track` error would
abort the whole loop, as an uncaught exception would in Python. -/
def runLoop (profile : Profile) (idx : List String) (envOf : Nat → SlskdEnv)
    (searchFuel monitorFuel : Nat) : List Track → Nat → Except String (Nat × Nat × Nat)
  | [], _ => pure (0, 0, 0)
  | t :: rest, i => do
    let result ← download_track profile (envOf i) idx t searchFuel monitorFuel
    let counts ← runLoop profile idx envOf searchFuel monitorFuel rest (i + 1)
    pure (if result && track_exists idx t then (counts.1 + 1, counts.2.1, counts.2.2)
          else if result then (counts.1, counts.2.1 + 1, counts.2.2)
          else (counts.1, counts.2.1, counts.2.2 + 1))

/-- Sample inputs shared by several witnesses. -/
def sampleTrack : Track :=
  ⟨"Let It Be", "Beatles", "Zzz", "sp0", 243000, none, none, none, none⟩

def sampleFile : FileData :=
  ⟨"beatles - let it be 1411kbps.flac", 0⟩

/-! ## Character-level facts -/

theorem uint32_le_iff (a b : UInt32) : (a ≤ b) ↔ a.toNat ≤ b.toNat := by
  rw [UInt32.le_def, BitVec.le_def]
  rfl

theorem char_isUpper_iff (c : Char) : c.isUpper = true ↔ (65 ≤ c.toNat ∧ c.toNat ≤ 90) := by
  simp only [Char.isUpper, ge_iff_le, Bool.and_eq_true, decide_eq_true_eq]
  rw [uint32_le_iff, uint32_le_iff]
  exact Iff.rfl

theorem char_ofNat_toNat_valid (n : Nat) (h : n.isValidChar) : (Char.ofNat n).toNat = n := by
  rw [Char.ofNat, dif_pos h]
  rfl

/-- Lowering with `Char.toLower` never yields an ASCII uppercase letter. -/
theorem toLower_not_upper (c : Char) : (Char.toLower c).isUpper = false := by
  unfold Char.toLower
  dsimp only
  split
  · rename_i h
    have hv : (Char.ofNat (c.toNat + 32)).toNat = c.toNat + 32 :=
      char_ofNat_toNat_valid _ (Or.inl (by omega))
    rw [Bool.eq_false_iff]
    intro hu
    have := (char_isUpper_iff _).mp hu
    omega
  · rename_i h
    rw [Bool.eq_false_iff]
    intro hu
    have := (char_isUpper_iff _).mp hu
    omega

/-! ## Shape of `normalizeString` output -/

theorem wordsAux_mem (l : List Char) :
    ∀ (acc : List Char), ∀ w ∈ wordsAux l acc, ∀ c ∈ w, c ∈ l ∨ c ∈ acc := by
  induction l with
  | nil =>
    intro acc w hw c hc
    unfold wordsAux at hw
    split at hw
    · simp at hw
    · simp only [List.mem_singleton] at hw
      subst hw
      right
      exact List.mem_reverse.mp hc
  | cons a rest ih =>
    intro acc w hw c hc
    unfold wordsAux at hw
    split at hw
    · split at hw
      · rcases ih [] w hw c hc with h | h
        · exact Or.inl (List.mem_cons_of_mem _ h)
        · simp at h
      · rcases List.mem_cons.mp hw with rfl | hw2
        · exact Or.inr (List.mem_reverse.mp hc)
        · rcases ih [] w hw2 c hc with h | h
          · exact Or.inl (List.mem_cons_of_mem _ h)
          · simp at h
    · rcases ih (a :: acc) w hw c hc with h | h
      · exact Or.inl (List.mem_cons_of_mem _ h)
      · rcases List.mem_cons.mp h with rfl | h2
        · exact Or.inl (List.mem_cons_self _ _)
        · exact Or.inr h2

theorem wordsAux_shape (l : List Char) :
    ∀ (acc : List Char), (∀ c ∈ acc, isPySpace c = false) →
      ∀ w ∈ wordsAux l acc, w ≠ [] ∧ ∀ c ∈ w, isPySpace c = false := by
  induction l with
  | nil =>
    intro acc hacc w hw
    unfold wordsAux at hw
    split at hw
    · simp at hw
    · rename_i hne
      simp only [List.mem_singleton] at hw
      subst hw
      refine ⟨?_, ?_⟩
      · simp only [ne_eq, List.reverse_eq_nil_iff]
        intro h
        subst h
        simp at hne
      · intro c hc
        exact hacc c (List.mem_reverse.mp hc)
  | cons a rest ih =>
    intro acc hacc w hw
    unfold wordsAux at hw
    split at hw
    · split at hw
      · exact ih [] (by simp) w hw
      · rename_i hne
        rcases List.mem_cons.mp hw with rfl | hw2
        · refine ⟨?_, ?_⟩
          · simp only [ne_eq, List.reverse_eq_nil_iff]
            intro h
            subst h
            simp at hne
          · intro c hc
            exact hacc c (List.mem_reverse.mp hc)
        · exact ih [] (by simp) w hw2
    · rename_i hsp
      refine ih (a :: acc) ?_ w hw
      intro c hc
      rcases List.mem_cons.mp hc with rfl | h2
      · simpa using hsp
      · exact hacc c h2

theorem chain_of_no_space {w : List Char} (hw : ∀ c ∈ w, isPySpace c = false) :
    List.Chain' (fun a b => ¬(a = ' ' ∧ b = ' ')) w := by
  induction w with
  | nil => simp
  | cons a t ih =>
    rw [List.chain'_cons']
    refine ⟨?_, ih (fun c hc => hw c (List.mem_cons_of_mem _ hc))⟩
    intro y _ hab
    have ha := hw a (List.mem_cons_self _ _)
    rw [hab.1] at ha
    simp [isPySpace] at ha

theorem joinWords_ne_nil (ws : List (List Char)) (hne : ws ≠ [])
    (h : ∀ w ∈ ws, w ≠ []) : joinWords ws ≠ [] := by
  match ws with
  | [] => exact absurd rfl hne
  | [w] => exact h w (by simp)
  | w :: w2 :: rest =>
    show w ++ ' ' :: joinWords (w2 :: rest) ≠ []
    simp

theorem joinWords_mem (ws : List (List Char)) :
    ∀ c ∈ joinWords ws, c = ' ' ∨ ∃ w ∈ ws, c ∈ w := by
  match ws with
  | [] => simp [joinWords]
  | [w] =>
    intro c hc
    exact Or.inr ⟨w, by simp, hc⟩
  | w :: w2 :: rest =>
    intro c hc
    rw [show joinWords (w :: w2 :: rest) = w ++ ' ' :: joinWords (w2 :: rest) from rfl] at hc
    rcases List.mem_append.mp hc with h | h
    · exact Or.inr ⟨w, by simp, h⟩
    · rcases List.mem_cons.mp h with rfl | h2
      · exact Or.inl rfl
      · rcases joinWords_mem (w2 :: rest) c h2 with h3 | ⟨u, hu, hcu⟩
        · exact Or.inl h3
        · exact Or.inr ⟨u, List.mem_cons_of_mem _ hu, hcu⟩

theorem joinWords_head (ws : List (List Char))
    (h : ∀ w ∈ ws, w ≠ [] ∧ ∀ c ∈ w, isPySpace c = false) :
    ∀ c, (joinWords ws).head? = some c → isPySpace c = false := by
  match ws with
  | [] => simp [joinWords]
  | [w] =>
    intro c hc
    exact (h w (by simp)).2 c (List.mem_of_mem_head? hc)
  | w :: w2 :: rest =>
    intro c hc
    rw [show joinWords (w :: w2 :: rest) = w ++ ' ' :: joinWords (w2 :: rest) from rfl] at hc
    obtain ⟨a, t, rfl⟩ : ∃ a t, w = a :: t := by
      rcases w with _ | ⟨a, t⟩
      · exact absurd rfl (h [] (by simp)).1
      · exact ⟨a, t, rfl⟩
    simp only [List.cons_append, List.head?_cons, Option.some.injEq] at hc
    subst hc
    exact (h (a :: t) (by simp)).2 a (List.mem_cons_self _ _)

theorem joinWords_last (ws : List (List Char))
    (h : ∀ w ∈ ws, w ≠ [] ∧ ∀ c ∈ w, isPySpace c = false) :
    ∀ c, (joinWords ws).getLast? = some c → isPySpace c = false := by
  match ws with
  | [] => simp [joinWords]
  | [w] =>
    intro c hc
    exact (h w (by simp)).2 c (List.mem_of_getLast?_eq_some hc)
  | w :: w2 :: rest =>
    intro c hc
    rw [show joinWords (w :: w2 :: rest) = w ++ ' ' :: joinWords (w2 :: rest) from rfl] at hc
    rw [List.getLast?_append] at hc
    have hJ : joinWords (w2 :: rest) ≠ [] :=
      joinWords_ne_nil _ (by simp) (fun u hu => (h u (List.mem_cons_of_mem _ hu)).1)
    obtain ⟨b, J, hbJ⟩ : ∃ b J, joinWords (w2 :: rest) = b :: J := by
      rcases hJE : joinWords (w2 :: rest) with _ | ⟨b, J⟩
      · exact absurd hJE hJ
      · exact ⟨b, J, rfl⟩
    rw [hbJ, List.getLast?_cons_cons, ← hbJ] at hc
    have : (joinWords (w2 :: rest)).getLast?.isSome := by
      rw [List.getLast?_isSome]
      exact hJ
    rcases hL : (joinWords (w2 :: rest)).getLast? with _ | d
    · rw [hL] at this
      simp at this
    · rw [hL] at hc
      simp only [Option.or_some, Option.some.injEq] at hc
      subst hc
      exact joinWords_last (w2 :: rest)
        (fun u hu => h u (List.mem_cons_of_mem _ hu)) d hL

theorem joinWords_chain (ws : List (List Char))
    (h : ∀ w ∈ ws, w ≠ [] ∧ ∀ c ∈ w, isPySpace c = false) :
    List.Chain' (fun a b => ¬(a = ' ' ∧ b = ' ')) (joinWords ws) := by
  match ws with
  | [] => simp [joinWords]
  | [w] => exact chain_of_no_space (h w (by simp)).2
  | w :: w2 :: rest =>
    rw [show joinWords (w :: w2 :: rest) = w ++ ' ' :: joinWords (w2 :: rest) from rfl]
    rw [List.chain'_append]
    refine ⟨chain_of_no_space (h w (by simp)).2, ?_, ?_⟩
    · rw [List.chain'_cons']
      refine ⟨?_, joinWords_chain (w2 :: rest) (fun u hu => h u (List.mem_cons_of_mem _ hu))⟩
      intro y hy hab
      have hns := joinWords_head (w2 :: rest)
        (fun u hu => h u (List.mem_cons_of_mem _ hu)) y (Option.mem_def.mp hy)
      rw [hab.2] at hns
      simp [isPySpace] at hns
    · intro x hx y hy hab
      have hxw := (h w (by simp)).2 x (List.mem_of_getLast?_eq_some (Option.mem_def.mp hx))
      rw [hab.1] at hxw
      simp [isPySpace] at hxw

/-- C5 counterexample: the claim says every character that is not
alphanumeric or whitespace is removed, but the source pattern `[^\w\s]`
keeps underscores, so `normalize("a_b")` still contains `_`, which is
neither alphanumeric nor a space. -/
theorem C5_counterexample :
    ∃ c ∈ (normalizeString "a_b").data, ¬(c.isAlphanum = true ∨ c = ' ') :=
  ⟨'_', by decide, by decide⟩

/-- C5 (amended): `_normalize_string` produces a lower-cased string in
which every character that is not a word character (alphanumeric or
underscore) or whitespace has been removed, internal whitespace runs are
collapsed to a single space, and the result is trimmed — the output
contains only word characters and single interior spaces: every character
is a word character or a space, no character is uppercase, no two spaces
are adjacent, and the string neither starts nor ends with a space. -/
theorem C5_normalize_shape (s : String) :
    (∀ c ∈ (normalizeString s).data, (isWordChar c || c == ' ') = true)
    ∧ (∀ c ∈ (normalizeString s).data, c.isUpper = false)
    ∧ List.Chain' (fun a b => ¬(a = ' ' ∧ b = ' ')) (normalizeString s).data
    ∧ (normalizeString s).data.head? ≠ some ' '
    ∧ (normalizeString s).data.getLast? ≠ some ' ' := by
  have hdata : (normalizeString s).data
      = joinWords (wordsAux ((s.data.map Char.toLower).filter
          (fun c => isWordChar c || isPySpace c)) []) := rfl
  set L := (s.data.map Char.toLower).filter (fun c => isWordChar c || isPySpace c) with hL
  have hws : ∀ w ∈ wordsAux L [], w ≠ [] ∧ ∀ c ∈ w, isPySpace c = false :=
    wordsAux_shape L [] (by simp)
  have hword_chars : ∀ c ∈ joinWords (wordsAux L []),
      c = ' ' ∨ (c ∈ L ∧ isPySpace c = false) := by
    intro c hc
    rcases joinWords_mem _ c hc with h | ⟨w, hw, hcw⟩
    · exact Or.inl h
    · refine Or.inr ⟨?_, (hws w hw).2 c hcw⟩
      rcases wordsAux_mem L [] w hw c hcw with h | h
      · exact h
      · simp at h
  refine ⟨?_, ?_, ?_, ?_, ?_⟩
  · intro c hc
    rw [hdata] at hc
    rcases hword_chars c hc with rfl | ⟨hcL, hnsp⟩
    · decide
    · have hp := (List.mem_filter.mp hcL).2
      rcases Bool.or_eq_true _ _ ▸ hp with h | h
      · simp [h]
      · rw [hnsp] at h
        simp at h
  · intro c hc
    rw [hdata] at hc
    rcases hword_chars c hc with rfl | ⟨hcL, _⟩
    · decide
    · have hmap := (List.mem_filter.mp hcL).1
      rcases List.mem_map.mp hmap with ⟨c0, _, rfl⟩
      exact toLower_not_upper c0
  · rw [hdata]
    exact joinWords_chain _ hws
  · rw [hdata]
    intro h
    have := joinWords_head _ hws ' ' h
    simp [isPySpace] at this
  · rw [hdata]
    intro h
    have := joinWords_last _ hws ' ' h
    simp [isPySpace] at this

/-- C5 witness: the amended theorem applied to a concrete string keeping
an underscore. -/
theorem C5_witness :
    '_' ∈ (normalizeString " A  b_C!! ").data
    ∧ (isWordChar '_' || '_' == ' ') = true :=
  ⟨by decide, (C5_normalize_shape " A  b_C!! ").1 '_' (by decide)⟩

theorem dropWhile_append_all (l1 l2 : List Char)
    (h : ∀ c ∈ l1, isPySpace c = true) :
    (l1 ++ l2).dropWhile isPySpace = l2.dropWhile isPySpace := by
  induction l1 with
  | nil => rfl
  | cons a t ih =>
    rw [List.cons_append, List.dropWhile_cons, h a (List.mem_cons_self _ _)]
    exact if_pos rfl ▸ ih (fun c hc => h c (List.mem_cons_of_mem _ hc))

/-- C6 counterexample: the claim says the leading article is removed
case-insensitively, but `re.sub(r"^the\s+", "", s)` is compiled without
`re.IGNORECASE`, so `"The Beatles"` is returned unchanged instead of
becoming `"Beatles"`. -/
theorem C6_counterexample :
    removeTheArticle "The Beatles" = "The Beatles"
    ∧ removeTheArticle "The Beatles" ≠ "Beatles" :=
  ⟨by decide, by decide⟩

/-- C6 (amended): `_remove_the_prefix` removes a leading lowercase "the"
token: for every string of the form `"the" ++ ws ++ rest` with `ws` a
nonempty whitespace run and `rest` not starting with whitespace, the
result is `rest`; capitalised variants such as `"The Beatles"` are left
unchanged (see the counterexample). -/
theorem C6_remove_the_lowercase (ws rest : String)
    (hws : ws.data ≠ [] ∧ ∀ c ∈ ws.data, isPySpace c = true)
    (hrest : rest.data.dropWhile isPySpace = rest.data) :
    removeTheArticle ("the" ++ ws ++ rest) = rest := by
  obtain ⟨wl⟩ := ws
  obtain ⟨rl⟩ := rest
  obtain ⟨w0, wt, rfl⟩ : ∃ w0 wt, wl = w0 :: wt := by
    rcases wl with _ | ⟨w0, wt⟩
    · exact absurd rfl hws.1
    · exact ⟨w0, wt, rfl⟩
  have hw0 : isPySpace w0 = true := hws.2 w0 (List.mem_cons_self _ _)
  rw [show ("the" ++ (⟨w0 :: wt⟩ : String) ++ (⟨rl⟩ : String))
      = (⟨'t' :: 'h' :: 'e' :: (w0 :: (wt ++ rl))⟩ : String) from rfl]
  simp only [removeTheArticle, hw0, if_true, List.dropWhile_cons]
  rw [dropWhile_append_all wt rl (fun c hc => hws.2 c (List.mem_cons_of_mem _ hc))]
  rw [show (⟨rl⟩ : String).data = rl from rfl] at hrest
  rw [hrest]

/-- C6 witness: the amended theorem applied at `"the beatles"`. -/
theorem C6_witness :
    (" ".data ≠ [] ∧ ∀ c ∈ " ".data, isPySpace c = true)
    ∧ removeTheArticle ("the" ++ " " ++ "beatles") = "beatles" :=
  ⟨⟨by decide, by decide⟩,
    C6_remove_the_lowercase " " "beatles" ⟨by decide, by decide⟩ (by decide)⟩

/-- C2 counterexample: indexing a local file parsed as artist
`"The Beatles"`, title `"Let It Be"` (filename stem
`"The Beatles - Let It Be"`) does NOT make `track_exists` true for a track
with artist `"Beatles"`: the "the"-stripped variants strip the query-side
patterns, which contain no leading "the" here, and never the stored index
keys, so no generated pattern hits the index. -/
theorem C2_counterexample :
    track_exists (scanKeys "The Beatles" "Let It Be" "The Beatles - Let It Be")
      ⟨"Let It Be", "Beatles", "Let It Be", "sp1", 243000, none, none, none, none⟩
      = false := by decide

/-- C2 (amended): with the index built from a local file whose parsed
metadata is artist "The Beatles" / title "Let It Be", `track_exists` is
true for a track named "Let It Be" by "The Beatles" (exact
`artist|title` key), but false for the same track by "Beatles": the
"the"-stripping applies to the query patterns, not to the index keys, so
dropping the article from the query side cannot recover the stored
`"the beatles|let it be"` key. -/
theorem C2_local_index_match :
    track_exists (scanKeys "The Beatles" "Let It Be" "The Beatles - Let It Be")
      ⟨"Let It Be", "The Beatles", "Let It Be", "sp1", 243000, none, none, none, none⟩
      = true
    ∧ track_exists (scanKeys "The Beatles" "Let It Be" "The Beatles - Let It Be")
      ⟨"Let It Be", "Beatles", "Let It Be", "sp2", 243000, none, none, none, none⟩
      = false := by
  exact ⟨by decide, by decide⟩

/-- C10: `track_exists` depends only on the track's artist and name
fields — two tracks agreeing on those two fields get the same answer
against the same index, whatever their album, id, duration or other
fields; as a pure function of the immutable index list it also leaves the
index unchanged by construction. -/
theorem C10_track_exists_field_independence (idx : List String) (t1 t2 : Track)
    (hartist : t1.artist = t2.artist) (hname : t1.name = t2.name) :
    track_exists idx t1 = track_exists idx t2 := by
  unfold track_exists
  rw [hartist, hname]

/-- C10 witness: two tracks agreeing on artist and name but differing in
album, id, duration and year give the same answer. -/
theorem C10_witness :
    track_exists ["adele|hello"]
      ⟨"Hello", "Adele", "25", "sp25", 295000, none, none, some 2015, none⟩
      = track_exists ["adele|hello"]
      ⟨"Hello", "Adele", "Greatest Hits", "sp99", 1000, some "V/A", some 3, none, some "pop"⟩ :=
  C10_track_exists_field_independence ["adele|hello"] _ _ rfl rfl

/-! ## Provenance of `find_best_match` results -/

theorem considerFile_origin (profile : Profile) (track : Track) (username : String)
    (files : List FileData) :
    ∀ (acc : ℚ × Option MatchResult) (m : MatchResult),
      (files.foldl (considerFile profile track username) acc).2 = some m →
      acc.2 = some m ∨ ∃ fd ∈ files, m = ⟨username, fd, score_file profile fd track⟩ := by
  induction files with
  | nil =>
    intro acc m h
    exact Or.inl h
  | cons f fs ih =>
    intro acc m h
    rw [List.foldl_cons] at h
    rcases ih (considerFile profile track username acc f) m h with h2 | ⟨fd, hfd, rfl⟩
    · unfold considerFile at h2
      dsimp only at h2
      split at h2
      · dsimp only at h2
        injection h2 with h3
        exact Or.inr ⟨f, List.mem_cons_self _ _, h3.symm⟩
      · exact Or.inl h2
    · exact Or.inr ⟨fd, List.mem_cons_of_mem _ hfd, rfl⟩

theorem considerResponse_origin (profile : Profile) (track : Track)
    (responses : List SearchResponse) :
    ∀ (acc : ℚ × Option MatchResult) (m : MatchResult),
      (responses.foldl (considerResponse profile track) acc).2 = some m →
      acc.2 = some m
      ∨ ∃ r ∈ responses, ∃ fd ∈ r.files,
          m = ⟨r.username, fd, score_file profile fd track⟩ := by
  induction responses with
  | nil =>
    intro acc m h
    exact Or.inl h
  | cons r rs ih =>
    intro acc m h
    rw [List.foldl_cons] at h
    rcases ih _ m h with h2 | ⟨r2, hr2, fd, hfd, rfl⟩
    · unfold considerResponse at h2
      rcases considerFile_origin profile track r.username r.files acc m h2 with h3 | ⟨fd, hfd, rfl⟩
      · exact Or.inl h3
      · exact Or.inr ⟨r, List.mem_cons_self _ _, fd, hfd, rfl⟩
    · exact Or.inr ⟨r2, List.mem_cons_of_mem _ hr2, fd, hfd, rfl⟩

theorem fold_empty_files (profile : Profile) (track : Track)
    (responses : List SearchResponse) (h : ∀ r ∈ responses, r.files = []) :
    ∀ acc, responses.foldl (considerResponse profile track) acc = acc := by
  induction responses with
  | nil =>
    intro acc
    rfl
  | cons r rs ih =>
    intro acc
    rw [List.foldl_cons]
    have hr : considerResponse profile track acc r = acc := by
      unfold considerResponse
      rw [h r (List.mem_cons_self _ _)]
      rfl
    rw [hr]
    exact ih (fun r2 h2 => h r2 (List.mem_cons_of_mem _ h2)) acc

/-- C3: `find_best_match` never returns a match scoring below 40, and
returns `none` when there are no peer responses or every peer's file list
is empty (the empty-responses case is the vacuous instance of the
hypothesis). -/
theorem C3_threshold (profile : Profile) (responses : List SearchResponse) (track : Track) :
    (∀ m, find_best_match profile responses track = some m → 40 ≤ m.score)
    ∧ ((∀ r ∈ responses, r.files = []) → find_best_match profile responses track = none) := by
  constructor
  · intro m h
    simp only [find_best_match] at h
    rcases hf : (responses.foldl (considerResponse profile track)
        ((0 : ℚ), (none : Option MatchResult))).2 with _ | m2
    · rw [hf] at h
      simp at h
    · rw [hf] at h
      dsimp only at h
      split at h
      · rename_i h40
        injection h with h2
        subst h2
        exact h40
      · simp at h
  · intro hempty
    simp only [find_best_match]
    rw [fold_empty_files profile track responses hempty]

/-- C3 witness: one peer with an empty file list yields no match. -/
theorem C3_witness :
    find_best_match LOSSLESS [⟨"peer", []⟩]
      ⟨"n", "a", "b", "i", 0, none, none, none, none⟩ = none :=
  (C3_threshold LOSSLESS [⟨"peer", []⟩] ⟨"n", "a", "b", "i", 0, none, none, none, none⟩).2
    (by
      intro r hr
      rcases List.mem_singleton.mp hr with rfl
      rfl)

/-- C9: whenever `find_best_match` returns a match, its username/file pair
comes from one of the given responses, and its `score` field is exactly
`score_file` of that file under the matcher's profile. -/
theorem C9_result_provenance (profile : Profile) (responses : List SearchResponse)
    (track : Track) (m : MatchResult)
    (h : find_best_match profile responses track = some m) :
    (∃ r ∈ responses, r.username = m.username ∧ m.file ∈ r.files)
    ∧ m.score = score_file profile m.file track := by
  have h2 : (responses.foldl (considerResponse profile track)
      ((0 : ℚ), (none : Option MatchResult))).2 = some m := by
    simp only [find_best_match] at h
    rcases hf : (responses.foldl (considerResponse profile track)
        ((0 : ℚ), (none : Option MatchResult))).2 with _ | m2
    · rw [hf] at h
      simp at h
    · rw [hf] at h
      dsimp only at h
      split at h
      · injection h with h3
        subst h3
        rfl
      · simp at h
  rcases considerResponse_origin profile track responses _ m h2 with h3 | ⟨r, hr, fd, hfd, rfl⟩
  · simp at h3
  · exact ⟨⟨r, hr, rfl, hfd⟩, rfl⟩

theorem sampleScore_eval : score_file LOSSLESS sampleFile sampleTrack = 105 := by
  have hmd : extract_metadata (lowerStr "beatles - let it be 1411kbps.flac")
      = ⟨some "flac", some 1411, true⟩ := by decide
  have h1 : subOccurs (cleanText "Let It Be").data
      (lowerStr "beatles - let it be 1411kbps.flac").data = true := by decide
  have h2 : subOccurs (cleanText "Beatles").data
      (lowerStr "beatles - let it be 1411kbps.flac").data = true := by decide
  have h3 : subOccurs (cleanText "Zzz").data
      (lowerStr "beatles - let it be 1411kbps.flac").data = false := by decide
  simp only [score_file, sampleFile, sampleTrack, hmd, h1, h2, h3, LOSSLESS]
  norm_num

theorem sampleFind_eval :
    find_best_match LOSSLESS [⟨"u", [sampleFile]⟩] sampleTrack
      = some ⟨"u", sampleFile, 105⟩ := by
  simp only [find_best_match, considerResponse, considerFile, List.foldl_cons,
    List.foldl_nil, sampleScore_eval]
  norm_num

/-- C9 witness: the provenance theorem applied to a concrete search
result. -/
theorem C9_witness :
    (∃ r ∈ [(⟨"u", [sampleFile]⟩ : SearchResponse)],
        r.username = (⟨"u", sampleFile, 105⟩ : MatchResult).username
        ∧ (⟨"u", sampleFile, 105⟩ : MatchResult).file ∈ r.files)
    ∧ (⟨"u", sampleFile, 105⟩ : MatchResult).score
        = score_file LOSSLESS (⟨"u", sampleFile, 105⟩ : MatchResult).file sampleTrack :=
  C9_result_provenance LOSSLESS [⟨"u", [sampleFile]⟩] sampleTrack
    ⟨"u", sampleFile, 105⟩ sampleFind_eval

/-- C4: one peer offering a single FLAC file whose extracted metadata is
format `flac` at 1411 kbps and whose (lowercased) filename contains the
cleaned track title and artist as substrings is returned by
`find_best_match` under the Lossless profile with a score of at least 80
(in fact at least 105). -/
theorem C4_lossless_end_to_end (track : Track) (user : String) (f : FileData)
    (hmd : extract_metadata (lowerStr f.filename) = ⟨some "flac", some 1411, true⟩)
    (hname : subOccurs (cleanText track.name).data (lowerStr f.filename).data = true)
    (hartist : subOccurs (cleanText track.artist).data (lowerStr f.filename).data = true) :
    ∃ s : ℚ, find_best_match LOSSLESS [⟨user, [f]⟩] track = some ⟨user, f, s⟩ ∧ 80 ≤ s := by
  have hsc : (105 : ℚ) ≤ score_file LOSSLESS f track := by
    simp only [score_file, hmd, hname, hartist, LOSSLESS]
    norm_num
    split
    · split
      · norm_num
      · norm_num
    · split
      · norm_num
      · norm_num
  refine ⟨score_file LOSSLESS f track, ?_, by linarith⟩
  simp only [find_best_match, considerResponse, considerFile, List.foldl_cons, List.foldl_nil]
  rw [if_pos (show ((0 : ℚ), (none : Option MatchResult)).1 < score_file LOSSLESS f track by
    simp only []
    linarith)]
  dsimp only
  rw [if_pos (show (40 : ℚ) ≤ score_file LOSSLESS f track by linarith)]

/-- C4 witness: the end-to-end theorem applied to a concrete peer, file and
track. -/
theorem C4_witness :
    (extract_metadata (lowerStr sampleFile.filename) = ⟨some "flac", some 1411, true⟩)
    ∧ ∃ s : ℚ, find_best_match LOSSLESS [⟨"u", [sampleFile]⟩] sampleTrack
        = some ⟨"u", sampleFile, s⟩ ∧ 80 ≤ s :=
  ⟨by decide, C4_lossless_end_to_end sampleTrack "u" sampleFile (by decide) (by decide) (by decide)⟩

/-- C1 (code-bug evidence): under the Standard profile, whose ordered
format list begins mp3, ogg, a plain `.ogg` file receives no
preferred-format bonus: the source hard-codes the bonus membership test to
`["flac", "mp3"][:2]` instead of the profile's own first two formats, so
the score is (30 + 0) x 0.6 = 18 while the claim predicts
(30 + 10) x 0.6 = 24. -/
theorem C1_bonus_hardcoded :
    score_file STANDARD ⟨"song.ogg", 0⟩
      ⟨"zzz", "qqq", "vvv", "id", 1000, none, none, none, none⟩ = 18
    ∧ STANDARD.formats.take 2 = ["mp3", "ogg"] := by
  constructor
  · have hmd : extract_metadata (lowerStr "song.ogg") = ⟨some "ogg", none, false⟩ := by decide
    have h1 : subOccurs (cleanText "zzz").data (lowerStr "song.ogg").data = false := by decide
    have h2 : subOccurs (cleanText "qqq").data (lowerStr "song.ogg").data = false := by decide
    have h3 : subOccurs (cleanText "vvv").data (lowerStr "song.ogg").data = false := by decide
    simp only [score_file, hmd, h1, h2, h3, STANDARD]
    norm_num
    rw [if_neg (by decide : ¬("ogg" = "flac" ∨ "ogg" = "mp3"))]
    norm_num
  · decide

set_option maxRecDepth 100000 in
theorem sim_john_jon : seqSimilarity "john smith" "jon smith" = 18/19 := by
  have hm : matchTotal "john smith".data "jon smith".data 20 (0, 10, 0, 9) = 9 := by decide
  have hl1 : "john smith".data.length = 10 := by decide
  have hl2 : "jon smith".data.length = 9 := by decide
  simp only [seqSimilarity, hl1, hl2, hm]
  norm_num

set_option maxRecDepth 100000 in
theorem sim_hello_hello : seqSimilarity "hello world" "hello world" = 1 := by
  have hm : matchTotal "hello world".data "hello world".data 23 (0, 11, 0, 11) = 11 := by decide
  have hl : "hello world".data.length = 11 := by decide
  simp only [seqSimilarity, hl, hm]
  norm_num

set_option maxRecDepth 100000 in
theorem sim_john_mary : seqSimilarity "john smith" "mary jones" = 2/5 := by
  have hm : matchTotal "john smith".data "mary jones".data 21 (0, 10, 0, 10) = 4 := by decide
  have hl1 : "john smith".data.length = 10 := by decide
  have hl2 : "mary jones".data.length = 10 := by decide
  simp only [seqSimilarity, hl1, hl2, hm]
  norm_num

set_option maxRecDepth 100000 in
theorem sim_jon_mary : seqSimilarity "jon smith" "mary jones" = 8/19 := by
  have hm : matchTotal "jon smith".data "mary jones".data 20 (0, 9, 0, 10) = 4 := by decide
  have hl1 : "jon smith".data.length = 9 := by decide
  have hl2 : "mary jones".data.length = 10 := by decide
  simp only [seqSimilarity, hl1, hl2, hm]
  norm_num

theorem similar_john_jon :
    are_similar_tracks "john smith|hello world" "jon smith|hello world" = true := by
  have hbar : (subOccurs ['|'] "john smith|hello world".data
      && subOccurs ['|'] "jon smith|hello world".data) = true := by decide
  have ha1 : String.mk ("john smith|hello world".data.takeWhile (fun c => c != '|'))
      = "john smith" := by decide
  have ht1 : String.mk (("john smith|hello world".data.dropWhile (fun c => c != '|')).drop 1)
      = "hello world" := by decide
  have ha2 : String.mk ("jon smith|hello world".data.takeWhile (fun c => c != '|'))
      = "jon smith" := by decide
  have ht2 : String.mk (("jon smith|hello world".data.dropWhile (fun c => c != '|')).drop 1)
      = "hello world" := by decide
  simp only [are_similar_tracks, hbar, ha1, ht1, ha2, ht2, if_true]
  simp only [Bool.and_eq_true, decide_eq_true_eq]
  rw [sim_john_jon, sim_hello_hello]
  norm_num

theorem similar_john_mary :
    are_similar_tracks "john smith|hello world" "mary jones|goodbye" = false := by
  have hbar : (subOccurs ['|'] "john smith|hello world".data
      && subOccurs ['|'] "mary jones|goodbye".data) = true := by decide
  have ha1 : String.mk ("john smith|hello world".data.takeWhile (fun c => c != '|'))
      = "john smith" := by decide
  have ha2 : String.mk ("mary jones|goodbye".data.takeWhile (fun c => c != '|'))
      = "mary jones" := by decide
  simp only [are_similar_tracks, hbar, ha1, ha2, if_true]
  have hart : decide ((4/5 : ℚ) < seqSimilarity "john smith" "mary jones") = false := by
    rw [decide_eq_false_iff_not, sim_john_mary]
    norm_num
  rw [hart, Bool.false_and]

theorem similar_jon_mary :
    are_similar_tracks "jon smith|hello world" "mary jones|goodbye" = false := by
  have hbar : (subOccurs ['|'] "jon smith|hello world".data
      && subOccurs ['|'] "mary jones|goodbye".data) = true := by decide
  have ha1 : String.mk ("jon smith|hello world".data.takeWhile (fun c => c != '|'))
      = "jon smith" := by decide
  have ha2 : String.mk ("mary jones|goodbye".data.takeWhile (fun c => c != '|'))
      = "mary jones" := by decide
  simp only [are_similar_tracks, hbar, ha1, ha2, if_true]
  have hart : decide ((4/5 : ℚ) < seqSimilarity "jon smith" "mary jones") = false := by
    rw [decide_eq_false_iff_not, sim_jon_mary]
    norm_num
  rw [hart, Bool.false_and]

/-- C7: with the index containing `"john smith|hello world"`,
`"jon smith|hello world"` and `"mary jones|goodbye"`,
`find_potential_duplicates` reports exactly the first two as near
duplicates of each other (artist similarity 18/19 > 0.8, title similarity
1.0), and does not pair `"john smith|hello world"` with
`"mary jones|goodbye"`. -/
theorem C7_near_duplicates :
    find_potential_duplicates
      ["john smith|hello world", "jon smith|hello world", "mary jones|goodbye"]
      = [("john smith|hello world", ["jon smith|hello world"])]
    ∧ (4/5 : ℚ) < seqSimilarity "john smith" "jon smith"
    ∧ seqSimilarity "hello world" "hello world" = 1
    ∧ are_similar_tracks "john smith|hello world" "mary jones|goodbye" = false := by
  refine ⟨?_, ?_, sim_hello_hello, similar_john_mary⟩
  · simp only [find_potential_duplicates, List.filter_cons, List.filter_nil,
      similar_john_jon, similar_john_mary, similar_jon_mary]
    simp
  · rw [sim_john_jon]
    norm_num

theorem download_track_total (profile : Profile) (env : SlskdEnv) (idx : List String)
    (track : Track) (sf mf : Nat) :
    ∃ b : Bool, download_track profile env idx track sf mf = Except.ok b := by
  unfold download_track
  split
  · exact ⟨true, rfl⟩
  · rcases hE : downloadBody profile env track sf mf with e | b
    · exact ⟨false, rfl⟩
    · exact ⟨b, rfl⟩

theorem runLoop_total (profile : Profile) (idx : List String) (envOf : Nat → SlskdEnv)
    (sf mf : Nat) (tracks : List Track) :
    ∀ i : Nat, ∃ counts : Nat × Nat × Nat,
      runLoop profile idx envOf sf mf tracks i = Except.ok counts
      ∧ counts.1 + counts.2.1 + counts.2.2 = tracks.length := by
  induction tracks with
  | nil =>
    intro i
    exact ⟨(0, 0, 0), rfl, rfl⟩
  | cons t rest ih =>
    intro i
    obtain ⟨b, hb⟩ := download_track_total profile (envOf i) idx t sf mf
    obtain ⟨counts, hc, hsum⟩ := ih (i + 1)
    refine ⟨if b && track_exists idx t then (counts.1 + 1, counts.2.1, counts.2.2)
            else if b then (counts.1, counts.2.1 + 1, counts.2.2)
            else (counts.1, counts.2.1, counts.2.2 + 1), ?_, ?_⟩
    · unfold runLoop
      rw [hb, hc]
      rfl
    · split
      · simp only [List.length_cons]
        omega
      · split
        · simp only [List.length_cons]
          omega
        · simp only [List.length_cons]
          omega

/-- C8: for every behaviour of the external collaborators, including any
exception at any call site modelled in `SlskdEnv`, `download_track`
returns `Except.ok` of a boolean (never an error), and therefore the batch
loop of `run` completes with every track accounted for in the
skipped/successful/failed counters. -/
theorem C8_no_exception_escapes (profile : Profile) (env : SlskdEnv) (idx : List String)
    (track : Track) (searchFuel monitorFuel : Nat) (envOf : Nat → SlskdEnv)
    (tracks : List Track) (i : Nat) :
    (∃ b : Bool, download_track profile env idx track searchFuel monitorFuel = Except.ok b)
    ∧ ∃ counts : Nat × Nat × Nat,
        runLoop profile idx envOf searchFuel monitorFuel tracks i = Except.ok counts
        ∧ counts.1 + counts.2.1 + counts.2.2 = tracks.length :=
  ⟨download_track_total profile env idx track searchFuel monitorFuel,
    runLoop_total profile idx envOf searchFuel monitorFuel tracks i⟩
